import Mathlib

/-!
Verification of the Inworld JWT sample app's signing core against its
specification.  The functions under `namespace Inworld` are a shallow
embedding of `src/index.ts`: strings are Lean `String`s, byte sequences are
`List Nat` with every byte below 256, and the crypto-js primitives
(`HmacSHA256`, hex stringification, UTF-8 parsing) are embedded at the byte
level.  Effectful inputs of the original (the current time read by
`new Date()`, the random bytes drawn by `crypto.randomBytes`) enter the
embedded functions as explicit arguments.
-/

namespace Inworld

/-- UTF-8 encoding of one Unicode scalar value, as byte values.  This is the
byte sequence crypto-js's `Utf8.parse` produces for the character. -/
def utf8EncodeChar (c : Char) : List Nat :=
  let n := c.toNat
  if n < 128 then [n]
  else if n < 2048 then [192 + n / 64, 128 + n % 64]
  else if n < 65536 then [224 + n / 4096, 128 + n / 64 % 64, 128 + n % 64]
  else [240 + n / 262144, 128 + n / 4096 % 64, 128 + n / 64 % 64, 128 + n % 64]

/-- UTF-8 bytes of a string (crypto-js `Utf8.parse`). -/
def utf8Bytes (s : String) : List Nat :=
  s.data.flatMap utf8EncodeChar

/-- Reduce to a 32-bit word. -/
def w32 (n : Nat) : Nat := n % 4294967296

/-- Right rotation of a 32-bit word by `n` bits. -/
def rotr (n x : Nat) : Nat := w32 (x / 2 ^ n + x % 2 ^ n * 2 ^ (32 - n))

/-- Logical right shift by `n` bits. -/
def shr (n x : Nat) : Nat := x / 2 ^ n

/-- Bitwise complement within 32 bits. -/
def bnot32 (x : Nat) : Nat := 4294967295 ^^^ x

def ch (x y z : Nat) : Nat := (x &&& y) ^^^ (bnot32 x &&& z)

def maj (x y z : Nat) : Nat := (x &&& y) ^^^ (x &&& z) ^^^ (y &&& z)

def bigSigma0 (x : Nat) : Nat := rotr 2 x ^^^ rotr 13 x ^^^ rotr 22 x

def bigSigma1 (x : Nat) : Nat := rotr 6 x ^^^ rotr 11 x ^^^ rotr 25 x

def smallSigma0 (x : Nat) : Nat := rotr 7 x ^^^ rotr 18 x ^^^ shr 3 x

def smallSigma1 (x : Nat) : Nat := rotr 17 x ^^^ rotr 19 x ^^^ shr 10 x

/-- The SHA-256 round constants (FIPS 180-4), as decimal values. -/
def K256 : List Nat :=
  [1116352408, 1899447441, 3049323471, 3921009573,
   961987163, 1508970993, 2453635748, 2870763221,
   3624381080, 310598401, 607225278, 1426881987,
   1925078388, 2162078206, 2614888103, 3248222580,
   3835390401, 4022224774, 264347078, 604807628,
   770255983, 1249150122, 1555081692, 1996064986,
   2554220882, 2821834349, 2952996808, 3210313671,
   3336571891, 3584528711, 113926993, 338241895,
   666307205, 773529912, 1294757372, 1396182291,
   1695183700, 1986661051, 2177026350, 2456956037,
   2730485921, 2820302411, 3259730800, 3345764771,
   3516065817, 3600352804, 4094571909, 275423344,
   430227734, 506948616, 659060556, 883997877,
   958139571, 1322822218, 1537002063, 1747873779,
   1955562222, 2024104815, 2227730452, 2361852424,
   2428436474, 2756734187, 3204031479, 3329325298]

/-- Big-endian byte rendering of a natural number into a fixed count of bytes. -/
def beBytes : Nat → Nat → List Nat
  | 0, _ => []
  | k + 1, n => beBytes k (n / 256) ++ [n % 256]

/-- SHA-256 padding: a 0x80 byte, zeros to 56 mod 64, the bit length as a
big-endian 64-bit integer. -/
def padMessage (msg : List Nat) : List Nat :=
  msg ++ [128] ++ List.replicate ((64 - (msg.length + 9) % 64) % 64) 0 ++
    beBytes 8 (8 * msg.length)

/-- Big-endian 32-bit words from bytes, four at a time. -/
def bytesToWords : List Nat → List Nat
  | b0 :: b1 :: b2 :: b3 :: rest =>
      (b0 * 16777216 + b1 * 65536 + b2 * 256 + b3) :: bytesToWords rest
  | _ => []

/-- Split a word list into blocks of 16 words. -/
def chunks16 (ws : List Nat) : List (List Nat) :=
  if h : ws = [] then [] else ws.take 16 :: chunks16 (ws.drop 16)
termination_by ws.length
decreasing_by
  have hl : ws.length ≠ 0 := fun hz => h (List.length_eq_zero.mp hz)
  simp only [List.length_drop]
  omega

/-- Extend the 16 message-schedule words by `k` more words. -/
def scheduleGo (acc : List Nat) : Nat → List Nat
  | 0 => acc
  | k + 1 =>
      let i := acc.length
      scheduleGo (acc ++ [w32 (smallSigma1 (acc.getD (i - 2) 0) + acc.getD (i - 7) 0 +
        smallSigma0 (acc.getD (i - 15) 0) + acc.getD (i - 16) 0)]) k

/-- The 64-word message schedule of one block. -/
def schedule (block : List Nat) : List Nat := scheduleGo block 48

/-- The eight 32-bit working variables of SHA-256. -/
structure Hash8 where
  a : Nat
  b : Nat
  c : Nat
  d : Nat
  e : Nat
  f : Nat
  g : Nat
  h : Nat

/-- One SHA-256 round, consuming a (round constant, schedule word) pair. -/
def compressStep (st : Hash8) (kw : Nat × Nat) : Hash8 :=
  let t1 := w32 (st.h + bigSigma1 st.e + ch st.e st.f st.g + kw.1 + kw.2)
  let t2 := w32 (bigSigma0 st.a + maj st.a st.b st.c)
  ⟨w32 (t1 + t2), st.a, st.b, st.c, w32 (st.d + t1), st.e, st.f, st.g⟩

/-- Process one 512-bit block. -/
def compressBlock (st : Hash8) (block : List Nat) : Hash8 :=
  let fin := (K256.zip (schedule block)).foldl compressStep st
  ⟨w32 (st.a + fin.a), w32 (st.b + fin.b), w32 (st.c + fin.c), w32 (st.d + fin.d),
   w32 (st.e + fin.e), w32 (st.f + fin.f), w32 (st.g + fin.g), w32 (st.h + fin.h)⟩

/-- The SHA-256 initial hash value (FIPS 180-4), as decimal values. -/
def initH : Hash8 :=
  ⟨1779033703, 3144134277, 1013904242, 2773480762,
   1359893119, 2600822924, 528734635, 1541459225⟩

/-- The four big-endian bytes of a 32-bit word. -/
def word4 (w : Nat) : List Nat :=
  [w / 16777216 % 256, w / 65536 % 256, w / 256 % 256, w % 256]

/-- The 32 digest bytes of a final hash state. -/
def digestBytes (st : Hash8) : List Nat :=
  [st.a, st.b, st.c, st.d, st.e, st.f, st.g, st.h].flatMap word4

/-- SHA-256 of a byte sequence. -/
def sha256 (msg : List Nat) : List Nat :=
  digestBytes ((chunks16 (bytesToWords (padMessage msg))).foldl compressBlock initH)

/-- HMAC-SHA256 with byte-level key and message, exactly as crypto-js computes
it: a key longer than the 64-byte block is hashed first, the key is
zero-padded to 64 bytes, and the digest is H((k ^ opad) ++ H((k ^ ipad) ++ msg)). -/
def hmacSha256 (key msg : List Nat) : List Nat :=
  let k0 := if 64 < key.length then sha256 key else key
  let kp := k0 ++ List.replicate (64 - k0.length) 0
  sha256 (kp.map (fun b => b ^^^ 92) ++ sha256 (kp.map (fun b => b ^^^ 54) ++ msg))

/-- Lowercase hex digit for a value below 16 (JS `Number.toString(16)`). -/
def hexDigitChar (n : Nat) : Char :=
  if n < 10 then Char.ofNat (48 + n) else Char.ofNat (87 + n)

/-- Two lowercase hex characters of one byte (crypto-js `Hex.stringify`). -/
def byteToHex (b : Nat) : List Char := [hexDigitChar (b / 16), hexDigitChar (b % 16)]

/-- Lowercase hex characters of a byte sequence. -/
def bytesToHexList (bs : List Nat) : List Char := bs.flatMap byteToHex

/-- Lowercase hex string of a byte sequence (crypto-js `WordArray.toString`). -/
def bytesToHex (bs : List Nat) : String := ⟨bytesToHexList bs⟩

/-- Embeds `getSignatureKey` from `src/index.ts`: the running value starts as
the string `IW1` + key (crypto-js UTF-8-parses a string key), each parameter
is folded in by `HmacSHA256(p, signature)` whose key is the previous step's
raw output, and the result is `HmacSHA256('iw1_request', signature)` rendered
as lowercase hex. -/
def getSignatureKey (key : String) (params : List String) : String :=
  let signature :=
    params.foldl (fun sig p => hmacSha256 sig (utf8Bytes p)) (utf8Bytes ("IW1" ++ key))
  bytesToHex (hmacSha256 signature (utf8Bytes "iw1_request"))

/-- Is `pat` an initial segment of `l`? -/
def startsWithList : List Char → List Char → Bool
  | [], _ => true
  | _ :: _, [] => false
  | a :: as, b :: bs => a == b && startsWithList as bs

/-- Does `pat` occur as a contiguous segment of `l`? -/
def hasOccurrence (pat : List Char) : List Char → Bool
  | [] => startsWithList pat []
  | c :: rest => startsWithList pat (c :: rest) || hasOccurrence pat rest

/-- Remove the first occurrence of `pat`, scanning left to right. -/
def replaceFirstAux (pat : List Char) : List Char → List Char
  | [] => []
  | c :: rest =>
    if startsWithList pat (c :: rest) then (c :: rest).drop pat.length
    else c :: replaceFirstAux pat rest

/-- Embeds JS `s.replace(pat, '')` with a string pattern: only the first
occurrence of `pat`, anywhere in `s`, is removed. -/
def jsReplaceFirst (s pat : String) : String := ⟨replaceFirstAux pat.data s.data⟩

/-- The host value that enters the signature in `getAuthorization`:
`engineHost.replace(':443', '')`. -/
def signedHost (engineHost : String) : String := jsReplaceFirst engineHost ":443"

/-- Embeds JS `s.substring(a, b)` for non-negative indices: both indices are
clamped to the length and swapped if out of order. -/
def jsSubstring (s : String) (a b : Nat) : String :=
  let n := s.data.length
  let lo := min (min a n) (min b n)
  let hi := max (min a n) (min b n)
  ⟨(s.data.drop lo).take (hi - lo)⟩

/-- Embeds JS `s.slice(a, b)` for non-negative indices. -/
def jsSlice (s : String) (a b : Nat) : String :=
  ⟨(s.data.take (min b s.data.length)).drop (min a s.data.length)⟩

/-- The `path` constant of `getAuthorization`. -/
def tokenPath : String := "/ai.inworld.engine.WorldEngine/GenerateToken"

/-- The method parameter signed over: `path.substring(1, path.length)`. -/
def tokenMethod : String := jsSubstring tokenPath 1 tokenPath.data.length

/-- The decimal digit character of a value below 10. -/
def digitChar (n : Nat) : Char := Char.ofNat (48 + n)

/-- Decimal digits of a natural number, most significant first. -/
def natDigits (n : Nat) : List Char :=
  if n < 10 then [digitChar n]
  else natDigits (n / 10) ++ [digitChar (n % 10)]
decreasing_by omega

/-- Decimal digits padded to width 2 (ISO date/time fields). -/
def pad2 (n : Nat) : List Char := if n < 10 then '0' :: natDigits n else natDigits n

/-- Decimal digits padded to width 3 (ISO milliseconds). -/
def pad3 (n : Nat) : List Char :=
  if n < 10 then '0' :: '0' :: natDigits n
  else if n < 100 then '0' :: natDigits n
  else natDigits n

/-- Decimal digits padded to width 4 (ISO year). -/
def pad4 (n : Nat) : List Char :=
  if n < 10 then '0' :: '0' :: '0' :: natDigits n
  else if n < 100 then '0' :: '0' :: natDigits n
  else if n < 1000 then '0' :: natDigits n
  else natDigits n

/-- An instant, as the UTC calendar components a JS `Date` exposes. -/
structure UTCTime where
  year : Nat
  month : Nat
  day : Nat
  hour : Nat
  minute : Nat
  second : Nat
  millis : Nat

/-- Model of JS `Date.prototype.toISOString` (years 0–9999): the UTC instant
rendered as `YYYY-MM-DDTHH:mm:ss.sssZ`.  `toISOString` is specified over UTC,
never local time, which is how the current instant enters this embedding. -/
def toISOString (t : UTCTime) : List Char :=
  pad4 t.year ++ '-' :: pad2 t.month ++ '-' :: pad2 t.day ++
    'T' :: pad2 t.hour ++ ':' :: pad2 t.minute ++ ':' :: pad2 t.second ++
    '.' :: pad3 t.millis ++ ['Z']

/-- Embeds JS `s.split(c)` for a one-character separator. -/
def splitOnChar (c : Char) : List Char → List (List Char)
  | [] => [[]]
  | x :: xs =>
    if x = c then [] :: splitOnChar c xs
    else
      match splitOnChar c xs with
      | [] => [[x]]
      | hd :: tl => (x :: hd) :: tl

/-- Embeds `getDateTime` from `src/index.ts`: split the ISO string at `'T'`,
delete every `'-'` from the date part, delete every `':'` from the time part
and keep its first six characters, then concatenate.  The current instant
enters as the UTC components, mirroring `new Date().toISOString()`. -/
def getDateTime (t : UTCTime) : String :=
  let parts := splitOnChar 'T' (toISOString t)
  let date := (parts.getD 0 []).filter (fun c => c ≠ '-')
  let time := ((parts.getD 1 []).filter (fun c => c ≠ ':')).take 6
  ⟨date ++ time⟩

/-- Embeds the nonce draw of `getAuthorization`:
`crypto.randomBytes(16).toString('hex').slice(1, 12)`, with the 16 random
bytes entering as an explicit argument. -/
def genNonce (randomBytes : List Nat) : String :=
  jsSlice (bytesToHex randomBytes) 1 12

/-- The `ApiKey` interface of `src/index.ts`. -/
structure ApiKey where
  key : String
  secret : String

/-- The ordered parameter list `getAuthorization` passes to
`getSignatureKey`: datetime, engine host with `':443'` removed, method path,
nonce. -/
def signedParams (engineHost : String) (now : UTCTime) (randomBytes : List Nat) :
    List String :=
  [getDateTime now, signedHost engineHost, tokenMethod, genNonce randomBytes]

/-- Embeds `getAuthorization` from `src/index.ts`.  The effectful draws (the
current instant, the 16 random nonce bytes) enter as explicit arguments;
`host` is kept as an argument because the source destructures it, though its
body never uses it. -/
def getAuthorization (host : String) (apiKey : ApiKey) (engineHost : String)
    (now : UTCTime) (randomBytes : List Nat) : String :=
  let datetime := getDateTime now
  let nonce := genNonce randomBytes
  let signature := getSignatureKey apiKey.secret (signedParams engineHost now randomBytes)
  "IW1-HMAC-SHA256 ApiKey=" ++ apiKey.key ++ ",DateTime=" ++ datetime ++
    ",Nonce=" ++ nonce ++ ",Signature=" ++ signature

/-- The spec's reference derivation chain, written from its words: `v0` is the
plain concatenation `"IW1" + secret`; for each parameter, `v_i` is HMAC-SHA256
with key `v_{i-1}` (the previous step's raw output, not re-encoded) and
message `p_i`; the result is HMAC-SHA256 with key `v4` and message
`"iw1_request"`, hex-encoded lowercase. -/
def specSignatureChain (secret p1 p2 p3 p4 : String) : String :=
  let v0 := utf8Bytes ("IW1" ++ secret)
  let v1 := hmacSha256 v0 (utf8Bytes p1)
  let v2 := hmacSha256 v1 (utf8Bytes p2)
  let v3 := hmacSha256 v2 (utf8Bytes p3)
  let v4 := hmacSha256 v3 (utf8Bytes p4)
  bytesToHex (hmacSha256 v4 (utf8Bytes "iw1_request"))

/-- Is `c` a lowercase hexadecimal character? -/
def isLowerHexChar (c : Char) : Bool :=
  ('0' ≤ c && c ≤ '9') || ('a' ≤ c && c ≤ 'f')

/-- Is `s` a 64-character lowercase hexadecimal string? -/
def isHex64 (s : String) : Bool :=
  s.data.length == 64 && s.data.all isLowerHexChar

theorem data_mk (l : List Char) : (String.mk l).data = l := rfl

theorem word4_lt {b w : Nat} (hb : b ∈ word4 w) : b < 256 := by
  simp only [word4, List.mem_cons, List.not_mem_nil, or_false] at hb
  rcases hb with rfl | rfl | rfl | rfl <;> exact Nat.mod_lt _ (by norm_num)

theorem digestBytes_length (st : Hash8) : (digestBytes st).length = 32 := by
  simp [digestBytes, word4]

theorem digestBytes_lt {b : Nat} {st : Hash8} (hb : b ∈ digestBytes st) : b < 256 := by
  simp only [digestBytes, List.mem_flatMap] at hb
  obtain ⟨w, _, hw⟩ := hb
  exact word4_lt hw

theorem sha256_length (msg : List Nat) : (sha256 msg).length = 32 :=
  digestBytes_length _

theorem sha256_lt {b : Nat} {msg : List Nat} (hb : b ∈ sha256 msg) : b < 256 :=
  digestBytes_lt hb

theorem hmacSha256_length (key msg : List Nat) : (hmacSha256 key msg).length = 32 := by
  unfold hmacSha256
  exact sha256_length _

theorem hmacSha256_lt {b : Nat} {key msg : List Nat} (hb : b ∈ hmacSha256 key msg) :
    b < 256 := by
  unfold hmacSha256 at hb
  exact sha256_lt hb

theorem hexDigitChar_isLowerHex {n : Nat} (hn : n < 16) :
    isLowerHexChar (hexDigitChar n) = true := by
  interval_cases n <;> decide

theorem byteToHex_isLowerHex {b : Nat} (hb : b < 256) {c : Char} (hc : c ∈ byteToHex b) :
    isLowerHexChar c = true := by
  simp only [byteToHex, List.mem_cons, List.not_mem_nil, or_false] at hc
  rcases hc with rfl | rfl
  · exact hexDigitChar_isLowerHex (by omega)
  · exact hexDigitChar_isLowerHex (by omega)

theorem bytesToHexList_length (bs : List Nat) :
    (bytesToHexList bs).length = 2 * bs.length := by
  induction bs with
  | nil => rfl
  | cons b rest ih =>
    simp only [bytesToHexList, List.flatMap_cons, List.length_append, List.length_cons] at *
    simp only [byteToHex, List.length_cons, List.length_nil]
    omega

theorem bytesToHexList_mem {bs : List Nat} (hbs : ∀ b ∈ bs, b < 256) {c : Char}
    (hc : c ∈ bytesToHexList bs) : isLowerHexChar c = true := by
  simp only [bytesToHexList, List.mem_flatMap] at hc
  obtain ⟨b, hb, hcb⟩ := hc
  exact byteToHex_isLowerHex (hbs b hb) hcb

theorem isHex64_bytesToHex {bs : List Nat} (hlen : bs.length = 32)
    (hlt : ∀ b ∈ bs, b < 256) : isHex64 (bytesToHex bs) = true := by
  simp only [isHex64, bytesToHex, data_mk, Bool.and_eq_true, beq_iff_eq, List.all_eq_true]
  refine ⟨?_, fun c hc => bytesToHexList_mem hlt hc⟩
  rw [bytesToHexList_length, hlen]

theorem getSignatureKey_isHex64 (key : String) (params : List String) :
    isHex64 (getSignatureKey key params) = true := by
  unfold getSignatureKey
  exact isHex64_bytesToHex (hmacSha256_length _ _) (fun b hb => hmacSha256_lt hb)

/-- Claim C1: for every secret and every ordered four-tuple of parameter
strings, `getSignatureKey` equals the spec's reference chain: `v0` is the
plain concatenation `"IW1" + secret`, each `v_i` is HMAC-SHA256 keyed by the
previous step's raw output with the parameter as message, and the result is
HMAC-SHA256 of `"iw1_request"` keyed by `v4`, hex-encoded lowercase. -/
theorem getSignatureKey_eq_specSignatureChain (s p1 p2 p3 p4 : String) :
    getSignatureKey s [p1, p2, p3, p4] = specSignatureChain s p1 p2 p3 p4 := rfl

/-- Claim C2: the authorization header is exactly the scheme
`IW1-HMAC-SHA256`, one space, then `ApiKey=`, `DateTime=`, `Nonce=` and
`Signature=` fields joined by commas with no other whitespace, where the
signature is the one derived over the signed parameters. -/
theorem getAuthorization_header_format (host : String) (apiKey : ApiKey)
    (engineHost : String) (now : UTCTime) (rnd : List Nat) :
    getAuthorization host apiKey engineHost now rnd =
      "IW1-HMAC-SHA256 ApiKey=" ++ apiKey.key ++ ",DateTime=" ++ getDateTime now ++
      ",Nonce=" ++ genNonce rnd ++ ",Signature=" ++
      getSignatureKey apiKey.secret (signedParams engineHost now rnd) := rfl

/-- Claim C3, counterexample: the claim says a string containing `:443` in a
non-trailing position is left unchanged, but the signed host value for
`"a:443b"` is `"ab"` — JS `replace(':443', '')` removes the first occurrence
anywhere, not only a trailing suffix. -/
theorem signedHost_nontrailing_counterexample :
    signedHost "a:443b" = "ab" ∧ ("a:443b" : String) ≠ "ab" := by
  decide

theorem replaceFirstAux_no_occurrence {pat : List Char} {l : List Char}
    (hno : hasOccurrence pat l = false) : replaceFirstAux pat l = l := by
  induction l with
  | nil => rfl
  | cons c rest ih =>
    simp only [hasOccurrence, Bool.or_eq_false_iff] at hno
    simp only [replaceFirstAux, hno.1, Bool.false_eq_true, if_false]
    rw [ih hno.2]

theorem replaceFirstAux_first_occurrence {pat : List Char} (l : List Char) (i : Nat)
    (hst : startsWithList pat (l.drop i) = true)
    (hmin : ∀ j, j < i → startsWithList pat (l.drop j) = false) :
    replaceFirstAux pat l = l.take i ++ l.drop (i + pat.length) := by
  induction l generalizing i with
  | nil => simp [replaceFirstAux]
  | cons c rest ih =>
    cases i with
    | zero =>
      simp only [List.drop_zero] at hst
      simp only [replaceFirstAux, hst, if_true, List.take_zero, Nat.zero_add,
        List.nil_append]
    | succ j =>
      have h0 : startsWithList pat (c :: rest) = false := by
        have := hmin 0 (Nat.succ_pos j)
        simpa using this
      simp only [replaceFirstAux, h0, Bool.false_eq_true, if_false]
      have hst' : startsWithList pat (rest.drop j) = true := by simpa using hst
      have hmin' : ∀ k, k < j → startsWithList pat (rest.drop k) = false := by
        intro k hk
        have := hmin (k + 1) (by omega)
        simpa using this
      rw [ih j hst' hmin']
      simp only [List.take_succ_cons, List.cons_append, List.cons.injEq, true_and]
      have : j + 1 + pat.length = (j + pat.length) + 1 := by omega
      rw [this, List.drop_succ_cons]

/-- Claim C3, amended: the host value signed over is `engineHost` with the
first occurrence of `":443"` removed, wherever it occurs — if `":443"` does
not occur as a contiguous segment, the host is unchanged (so `":8443"` stays
intact and a trailing `":443"` is stripped), but a non-trailing occurrence is
removed as well. -/
theorem signedHost_first_occurrence (h : String) :
    (hasOccurrence (":443").data h.data = false → signedHost h = h) ∧
    (∀ i, startsWithList (":443").data (h.data.drop i) = true →
      (∀ j, j < i → startsWithList (":443").data (h.data.drop j) = false) →
      (signedHost h).data = h.data.take i ++ h.data.drop (i + 4)) := by
  constructor
  · intro hno
    show jsReplaceFirst h ":443" = h
    unfold jsReplaceFirst
    rw [replaceFirstAux_no_occurrence hno]
  · intro i hst hmin
    show (jsReplaceFirst h ":443").data = _
    unfold jsReplaceFirst
    rw [data_mk, replaceFirstAux_first_occurrence h.data i hst hmin]
    rfl

/-- Witness for the amended claim C3, at `"example.com:443"` with the first
(and only) occurrence of `":443"` at index 11: the trailing suffix is
stripped, yielding `"example.com"`. -/
theorem signedHost_first_occurrence_witness :
    (signedHost "example.com:443").data =
      ("example.com:443").data.take 11 ++ ("example.com:443").data.drop 15 ∧
    signedHost "example.com:443" = "example.com" :=
  ⟨(signedHost_first_occurrence "example.com:443").2 11 (by decide) (by decide),
   by decide⟩

/-- Claim C4, counterexample: with an empty secret the Signer does not fail —
at a concrete parameter tuple it silently produces a valid-format
64-character lowercase hex signature. -/
theorem getSignatureKey_empty_secret_counterexample :
    isHex64 (getSignatureKey "" ["20250101000000", "api-engine.inworld.ai",
      "ai.inworld.engine.WorldEngine/GenerateToken", "abc123"]) = true :=
  getSignatureKey_isHex64 "" ["20250101000000", "api-engine.inworld.ai",
    "ai.inworld.engine.WorldEngine/GenerateToken", "abc123"]

/-- Claim C4, amended: the Signer performs no validation of the secret: for
every parameter list, an empty secret is accepted and yields a valid-format
64-character lowercase hex signature (derived from initial key material
`"IW1"`), rather than an error. -/
theorem getSignatureKey_empty_secret_no_error (params : List String) :
    isHex64 (getSignatureKey "" params) = true :=
  getSignatureKey_isHex64 "" params

/-- Claim C5: the signature derivation is a pure function — identical secret
and identical four parameters give byte-identical output — and every output
is a 64-character lowercase hexadecimal string. -/
theorem getSignatureKey_deterministic_hex (s t h m n : String) :
    getSignatureKey s [t, h, m, n] = getSignatureKey s [t, h, m, n] ∧
    isHex64 (getSignatureKey s [t, h, m, n]) = true :=
  ⟨rfl, getSignatureKey_isHex64 s [t, h, m, n]⟩

theorem digitChar_isDigit {n : Nat} (h : n < 10) : (digitChar n).isDigit = true := by
  interval_cases n <;> decide

theorem natDigits_isDigit {n : Nat} {c : Char} (hc : c ∈ natDigits n) :
    c.isDigit = true := by
  induction n using Nat.strong_induction_on with
  | _ n ih =>
    rw [natDigits] at hc
    by_cases h10 : n < 10
    · rw [if_pos h10] at hc
      rcases List.mem_cons.mp hc with rfl | hc
      · exact digitChar_isDigit h10
      · exact absurd hc (List.not_mem_nil c)
    · rw [if_neg h10] at hc
      rcases List.mem_append.mp hc with hc | hc
      · exact ih (n / 10) (by omega) hc
      · rcases List.mem_cons.mp hc with rfl | hc
        · exact digitChar_isDigit (Nat.mod_lt _ (by norm_num))
        · exact absurd hc (List.not_mem_nil c)

theorem natDigits_one_digit {n : Nat} (h : n < 10) : natDigits n = [digitChar n] := by
  rw [natDigits, if_pos h]

theorem natDigits_two_digits {n : Nat} (h1 : 10 ≤ n) (h2 : n < 100) :
    (natDigits n).length = 2 := by
  rw [natDigits, if_neg (by omega), natDigits_one_digit (by omega)]
  rfl

theorem natDigits_three_digits {n : Nat} (h1 : 100 ≤ n) (h2 : n < 1000) :
    (natDigits n).length = 3 := by
  rw [natDigits, if_neg (by omega)]
  simp [natDigits_two_digits (show 10 ≤ n / 10 by omega) (show n / 10 < 100 by omega)]

theorem natDigits_four_digits {n : Nat} (h1 : 1000 ≤ n) (h2 : n < 10000) :
    (natDigits n).length = 4 := by
  rw [natDigits, if_neg (by omega)]
  simp [natDigits_three_digits (show 100 ≤ n / 10 by omega) (show n / 10 < 1000 by omega)]

theorem pad2_isDigit {n : Nat} {c : Char} (hc : c ∈ pad2 n) : c.isDigit = true := by
  rw [pad2] at hc
  by_cases h : n < 10
  · rw [if_pos h] at hc
    rcases List.mem_cons.mp hc with rfl | hc
    · decide
    · exact natDigits_isDigit hc
  · rw [if_neg h] at hc
    exact natDigits_isDigit hc

theorem pad3_isDigit {n : Nat} {c : Char} (hc : c ∈ pad3 n) : c.isDigit = true := by
  rw [pad3] at hc
  by_cases h1 : n < 10
  · rw [if_pos h1] at hc
    rcases List.mem_cons.mp hc with rfl | hc
    · decide
    rcases List.mem_cons.mp hc with rfl | hc
    · decide
    · exact natDigits_isDigit hc
  · rw [if_neg h1] at hc
    by_cases h2 : n < 100
    · rw [if_pos h2] at hc
      rcases List.mem_cons.mp hc with rfl | hc
      · decide
      · exact natDigits_isDigit hc
    · rw [if_neg h2] at hc
      exact natDigits_isDigit hc

theorem pad4_isDigit {n : Nat} {c : Char} (hc : c ∈ pad4 n) : c.isDigit = true := by
  rw [pad4] at hc
  by_cases h1 : n < 10
  · rw [if_pos h1] at hc
    rcases List.mem_cons.mp hc with rfl | hc
    · decide
    rcases List.mem_cons.mp hc with rfl | hc
    · decide
    rcases List.mem_cons.mp hc with rfl | hc
    · decide
    · exact natDigits_isDigit hc
  · rw [if_neg h1] at hc
    by_cases h2 : n < 100
    · rw [if_pos h2] at hc
      rcases List.mem_cons.mp hc with rfl | hc
      · decide
      rcases List.mem_cons.mp hc with rfl | hc
      · decide
      · exact natDigits_isDigit hc
    · rw [if_neg h2] at hc
      by_cases h3 : n < 1000
      · rw [if_pos h3] at hc
        rcases List.mem_cons.mp hc with rfl | hc
        · decide
        · exact natDigits_isDigit hc
      · rw [if_neg h3] at hc
        exact natDigits_isDigit hc

theorem pad2_length {n : Nat} (h : n < 100) : (pad2 n).length = 2 := by
  rw [pad2]
  by_cases h1 : n < 10
  · rw [if_pos h1, natDigits_one_digit h1]
    rfl
  · rw [if_neg h1]
    exact natDigits_two_digits (by omega) h

theorem pad4_length {n : Nat} (h : n < 10000) : (pad4 n).length = 4 := by
  rw [pad4]
  by_cases h1 : n < 10
  · rw [if_pos h1, natDigits_one_digit h1]
    rfl
  · rw [if_neg h1]
    by_cases h2 : n < 100
    · rw [if_pos h2]
      simp [natDigits_two_digits (by omega) h2]
    · rw [if_neg h2]
      by_cases h3 : n < 1000
      · rw [if_pos h3]
        simp [natDigits_three_digits (by omega) h3]
      · rw [if_neg h3]
        exact natDigits_four_digits (by omega) h

theorem splitOnChar_of_not_mem {c : Char} {l : List Char} (h : c ∉ l) :
    splitOnChar c l = [l] := by
  induction l with
  | nil => rfl
  | cons x xs ih =>
    simp only [List.mem_cons, not_or] at h
    simp only [splitOnChar]
    rw [if_neg (fun he => h.1 he.symm), ih h.2]

theorem splitOnChar_append {c : Char} {A : List Char} (B : List Char) (hA : c ∉ A) :
    splitOnChar c (A ++ c :: B) = A :: splitOnChar c B := by
  induction A with
  | nil =>
    simp [splitOnChar]
  | cons x xs ih =>
    simp only [List.mem_cons, not_or] at hA
    simp only [List.cons_append, splitOnChar, List.append_eq]
    rw [if_neg (fun he => hA.1 he.symm), ih hA.2]

theorem filter_ne_eq_self {p : Char} {l : List Char} (hp : p.isDigit = false)
    (hl : ∀ c ∈ l, c.isDigit = true) : l.filter (fun c => c ≠ p) = l := by
  rw [List.filter_eq_self]
  intro a ha
  have hap : a ≠ p := fun he => absurd (hl a ha) (by simp [he, hp])
  simp [hap]

/-- Claim C6: `getDateTime` renders the current UTC instant (the components
of `toISOString`, which is specified over UTC, never local time) as the date
digits followed by the time digits with all separators removed — a string of
exactly 14 numeric characters in the format `YYYYMMDDHHMMSS` — whenever the
calendar components are in range. -/
theorem getDateTime_format (t : UTCTime) (hy : t.year < 10000) (hmo : t.month < 100)
    (hd : t.day < 100) (hh : t.hour < 100) (hmi : t.minute < 100)
    (hs : t.second < 100) :
    (getDateTime t).data =
      pad4 t.year ++ pad2 t.month ++ pad2 t.day ++
        pad2 t.hour ++ pad2 t.minute ++ pad2 t.second ∧
    (getDateTime t).length = 14 ∧
    (∀ c ∈ (getDateTime t).data, c.isDigit = true) := by
  have hTiso : toISOString t =
      (pad4 t.year ++ '-' :: pad2 t.month ++ '-' :: pad2 t.day) ++ 'T' ::
      (pad2 t.hour ++ ':' :: pad2 t.minute ++ ':' :: pad2 t.second ++
        '.' :: pad3 t.millis ++ ['Z']) := by
    simp [toISOString, List.append_assoc]
  have hTnotA : 'T' ∉ pad4 t.year ++ '-' :: pad2 t.month ++ '-' :: pad2 t.day := by
    intro hmem
    simp only [List.mem_append, List.mem_cons] at hmem
    rcases hmem with (h1 | h1 | h1) | (h1 | h1)
    · exact absurd (pad4_isDigit h1) (by decide)
    · exact absurd h1 (by decide)
    · exact absurd (pad2_isDigit h1) (by decide)
    · exact absurd h1 (by decide)
    · exact absurd (pad2_isDigit h1) (by decide)
  have hTnotB : 'T' ∉ pad2 t.hour ++ ':' :: pad2 t.minute ++ ':' :: pad2 t.second ++
      '.' :: pad3 t.millis ++ ['Z'] := by
    intro hmem
    simp only [List.mem_append, List.mem_cons] at hmem
    rcases hmem with (((h1 | h1 | h1) | h1 | h1) | h1 | h1) | h1 | h1
    · exact absurd (pad2_isDigit h1) (by decide)
    · exact absurd h1 (by decide)
    · exact absurd (pad2_isDigit h1) (by decide)
    · exact absurd h1 (by decide)
    · exact absurd (pad2_isDigit h1) (by decide)
    · exact absurd h1 (by decide)
    · exact absurd (pad3_isDigit h1) (by decide)
    · exact absurd h1 (by decide)
    · exact absurd h1 (List.not_mem_nil 'T')
  have hsplit : splitOnChar 'T' (toISOString t) =
      [pad4 t.year ++ '-' :: pad2 t.month ++ '-' :: pad2 t.day,
       pad2 t.hour ++ ':' :: pad2 t.minute ++ ':' :: pad2 t.second ++
         '.' :: pad3 t.millis ++ ['Z']] := by
    rw [hTiso, splitOnChar_append _ hTnotA, splitOnChar_of_not_mem hTnotB]
  have hdatef : (pad4 t.year ++ '-' :: pad2 t.month ++ '-' :: pad2 t.day).filter
      (fun c => c ≠ '-') = pad4 t.year ++ pad2 t.month ++ pad2 t.day := by
    have e1 := filter_ne_eq_self (p := '-') (by decide)
      (fun c hc => pad4_isDigit (n := t.year) hc)
    have e2 := filter_ne_eq_self (p := '-') (by decide)
      (fun c hc => pad2_isDigit (n := t.month) hc)
    have e3 := filter_ne_eq_self (p := '-') (by decide)
      (fun c hc => pad2_isDigit (n := t.day) hc)
    simp only [ne_eq, decide_not] at e1 e2 e3
    simp [List.filter_append, List.filter_cons, e1, e2, e3, List.append_assoc]
  have htimef : (pad2 t.hour ++ ':' :: pad2 t.minute ++ ':' :: pad2 t.second ++
      '.' :: pad3 t.millis ++ ['Z']).filter (fun c => c ≠ ':') =
      pad2 t.hour ++ pad2 t.minute ++ pad2 t.second ++
        '.' :: (pad3 t.millis).filter (fun c => c ≠ ':') ++ ['Z'] := by
    have e1 := filter_ne_eq_self (p := ':') (by decide)
      (fun c hc => pad2_isDigit (n := t.hour) hc)
    have e2 := filter_ne_eq_self (p := ':') (by decide)
      (fun c hc => pad2_isDigit (n := t.minute) hc)
    have e3 := filter_ne_eq_self (p := ':') (by decide)
      (fun c hc => pad2_isDigit (n := t.second) hc)
    simp only [ne_eq, decide_not] at e1 e2 e3
    simp [List.filter_append, List.filter_cons, e1, e2, e3, List.append_assoc]
  have hlen6 : (pad2 t.hour ++ pad2 t.minute ++ pad2 t.second).length = 6 := by
    simp [pad2_length hh, pad2_length hmi, pad2_length hs]
  have htake : (pad2 t.hour ++ pad2 t.minute ++ pad2 t.second ++
      '.' :: (pad3 t.millis).filter (fun c => c ≠ ':') ++ ['Z']).take 6 =
      pad2 t.hour ++ pad2 t.minute ++ pad2 t.second := by
    rw [List.append_assoc, List.take_left' hlen6]
  have hdata : (getDateTime t).data =
      pad4 t.year ++ pad2 t.month ++ pad2 t.day ++
        (pad2 t.hour ++ pad2 t.minute ++ pad2 t.second) := by
    simp only [getDateTime, data_mk, hsplit, List.getD_cons_zero, List.getD_cons_succ]
    rw [hdatef, htimef, htake]
  refine ⟨?_, ?_, ?_⟩
  · rw [hdata]
    simp [List.append_assoc]
  · show (getDateTime t).data.length = 14
    rw [hdata]
    simp [pad4_length hy, pad2_length hmo, pad2_length hd, pad2_length hh,
      pad2_length hmi, pad2_length hs]
  · intro c hc
    rw [hdata] at hc
    simp only [List.mem_append] at hc
    rcases hc with ((h1 | h1) | h1) | (h1 | h1) | h1
    · exact pad4_isDigit h1
    · exact pad2_isDigit h1
    · exact pad2_isDigit h1
    · exact pad2_isDigit h1
    · exact pad2_isDigit h1
    · exact pad2_isDigit h1

/-- Witness for claim C6 at a concrete instant: 2025-05-16T02:50:26.123Z
formats to the 14 digits `20250516025026`. -/
theorem getDateTime_format_witness :
    (getDateTime ⟨2025, 5, 16, 2, 50, 26, 123⟩).data =
      pad4 2025 ++ pad2 5 ++ pad2 16 ++ pad2 2 ++ pad2 50 ++ pad2 26 ∧
    (getDateTime ⟨2025, 5, 16, 2, 50, 26, 123⟩).length = 14 ∧
    (∀ c ∈ (getDateTime ⟨2025, 5, 16, 2, 50, 26, 123⟩).data, c.isDigit = true) :=
  getDateTime_format ⟨2025, 5, 16, 2, 50, 26, 123⟩ (by decide) (by decide)
    (by decide) (by decide) (by decide) (by decide)

/-- Claim C7: the method-path parameter signed over (the third signed
parameter) is exactly the canonical constant, and the `path` constant is that
string with just a leading slash prepended — so only the leading slash is
removed. -/
theorem signedParams_method_canonical (engineHost : String) (now : UTCTime)
    (rnd : List Nat) :
    (signedParams engineHost now rnd).getD 2 "" =
      "ai.inworld.engine.WorldEngine/GenerateToken" ∧
    tokenPath.data = '/' :: ("ai.inworld.engine.WorldEngine/GenerateToken").data :=
  ⟨rfl, rfl⟩

/-- Claim C8: `getSignatureKey` is total on its parameter list — every
parameter list, including ones containing empty strings, takes no error
branch and yields a valid-format 64-character lowercase hex signature. -/
theorem getSignatureKey_total_hex (s : String) (params : List String) :
    isHex64 (getSignatureKey s params) = true :=
  getSignatureKey_isHex64 s params

/-- Claim C9: for every draw of the 16 underlying random bytes, the nonce is
the slice from index 1 to index 12 of the 32-character hex encoding, hence a
hexadecimal string of the same fixed non-zero length, 11 characters. -/
theorem genNonce_spec (bs : List Nat) (hlen : bs.length = 16)
    (hlt : ∀ b ∈ bs, b < 256) :
    (bytesToHex bs).length = 32 ∧ (genNonce bs).length = 11 ∧
    (∀ c ∈ (genNonce bs).data, isLowerHexChar c = true) := by
  have h32 : (bytesToHexList bs).length = 32 := by rw [bytesToHexList_length, hlen]
  have hdataN : (genNonce bs).data =
      ((bytesToHexList bs).take (min 12 (bytesToHexList bs).length)).drop
        (min 1 (bytesToHexList bs).length) := rfl
  refine ⟨h32, ?_, ?_⟩
  · show ((genNonce bs).data).length = 11
    rw [hdataN]
    simp only [List.length_drop, List.length_take, h32]
    omega
  · intro c hc
    rw [hdataN] at hc
    exact bytesToHexList_mem hlt (List.take_subset _ _ (List.drop_subset _ _ hc))

/-- Witness for claim C9 at a concrete random draw of 16 bytes. -/
theorem genNonce_spec_witness :
    (bytesToHex [0, 1, 2, 3, 4, 5, 6, 7, 8, 9, 10, 11, 12, 13, 14, 255]).length = 32 ∧
    (genNonce [0, 1, 2, 3, 4, 5, 6, 7, 8, 9, 10, 11, 12, 13, 14, 255]).length = 11 ∧
    (∀ c ∈ (genNonce [0, 1, 2, 3, 4, 5, 6, 7, 8, 9, 10, 11, 12, 13, 14, 255]).data,
      isLowerHexChar c = true) :=
  genNonce_spec [0, 1, 2, 3, 4, 5, 6, 7, 8, 9, 10, 11, 12, 13, 14, 255]
    (by decide) (by decide)

/-- Claim C10: the authorization header does not depend on the `host`
argument — with identical apiKey, engineHost, instant and random draw but
arbitrary differing `host` values, the headers are equal. -/
theorem getAuthorization_ignores_host (h1 h2 : String) (apiKey : ApiKey)
    (engineHost : String) (now : UTCTime) (rnd : List Nat) :
    getAuthorization h1 apiKey engineHost now rnd =
      getAuthorization h2 apiKey engineHost now rnd := rfl

end Inworld
